import Mathlib

/-!
Shallow embedding of the key-validation/conversion module (`src/keys.js`) and
the multisig signature-merging module of the unchained-bitcoin repository.

Strings handled character-wise by the JavaScript source are modelled as
`List Char`; byte buffers as `List Nat` (each element a byte value < 256 by
construction).  External library collaborators (`bs58check`, `bip32`, the
signature-validation and sighash-stripping helpers) are passed in as explicit
function parameters, mirroring the source's module imports.
-/

namespace Unchained

/-- Modelled from the spec: the bitcoin network enumeration provided by the
external `networks` module (`NETWORKS.MAINNET` / `NETWORKS.TESTNET`). -/
inductive Network where
  | MAINNET
  | TESTNET
deriving DecidableEq, Repr

/-- Whitespace recognised by the JavaScript `String.prototype.trim` used in
`extendedPublicKeyConvert`: the ECMAScript WhiteSpace and LineTerminator
characters — TAB, LF, VT, FF, CR, SP, NBSP, ZWNBSP/BOM, LS, PS and the
Unicode space separators (U+1680, U+2000..U+200A, U+202F, U+205F, U+3000). -/
def isJsWs (c : Char) : Bool :=
  let n := c.toNat
  n = 0x9 || n = 0xa || n = 0xb || n = 0xc || n = 0xd || n = 0x20
    || n = 0xa0 || n = 0x1680
    || (0x2000 ≤ n && n ≤ 0x200a)
    || n = 0x2028 || n = 0x2029 || n = 0x202f || n = 0x205f || n = 0x3000
    || n = 0xfeff

/-- JavaScript `String.prototype.trim`: drop leading and trailing whitespace. -/
def jsTrim (s : List Char) : List Char :=
  ((s.dropWhile isJsWs).reverse.dropWhile isJsWs).reverse

/-- Value of a hex digit character, `none` for a non-hex character. -/
def hexVal (c : Char) : Option Nat :=
  let n := c.toNat
  if 48 ≤ n ∧ n ≤ 57 then some (n - 48)
  else if 97 ≤ n ∧ n ≤ 102 then some (n - 97 + 10)
  else if 65 ≤ n ∧ n ≤ 70 then some (n - 65 + 10)
  else none

/-- Node's `Buffer.from(hex, 'hex')`: parse hex pairs from the left, stopping at
the first pair that is not two hex digits (a dangling odd character is
likewise dropped). -/
def bufferFromHex : List Char → List Nat
  | c1 :: c2 :: rest =>
    match hexVal c1, hexVal c2 with
    | some hi, some lo => (hi * 16 + lo) :: bufferFromHex rest
    | _, _ => []
  | _ => []

/-- Lowercase hex digit for a value below 16. -/
def hexDigitChar (n : Nat) : Char :=
  if n < 10 then Char.ofNat ('0'.toNat + n)
  else Char.ofNat ('a'.toNat + (n - 10))

/-- Node's `buffer.toString('hex')`: two lowercase hex digits per byte. -/
def hexEncode : List Nat → List Char
  | [] => []
  | b :: rest => hexDigitChar (b / 16 % 16) :: hexDigitChar (b % 16) :: hexEncode rest

/-- The ten-entry extended-public-key version table of `src/keys.js`
(`extendedPublicKeyVersions`), mapping each 4-character token to its
4-byte version bytes. -/
def extendedPublicKeyVersions : List (List Char × List Nat) :=
  [ (['x','p','u','b'], [0x04, 0x88, 0xb2, 0x1e])
  , (['y','p','u','b'], [0x04, 0x9d, 0x7c, 0xb2])
  , (['z','p','u','b'], [0x04, 0xb2, 0x43, 0x0c])
  , (['Y','p','u','b'], [0x02, 0x95, 0xb4, 0x3f])
  , (['Z','p','u','b'], [0x02, 0xaa, 0x7e, 0xd3])
  , (['t','p','u','b'], [0x04, 0x35, 0x87, 0xcf])
  , (['u','p','u','b'], [0x04, 0x4a, 0x52, 0x62])
  , (['v','p','u','b'], [0x04, 0x5f, 0x1c, 0xf6])
  , (['U','p','u','b'], [0x02, 0x42, 0x89, 0xef])
  , (['V','p','u','b'], [0x02, 0x57, 0x54, 0x83]) ]

/-- `Object.keys(extendedPublicKeyVersions)`: the ten known tokens. -/
def versionTokens : List (List Char) :=
  extendedPublicKeyVersions.map Prod.fst

/-- `extendedPublicKeyVersions[pfx]` as bytes (defined only for known tokens;
defaults to `[]` otherwise, a case the source never reaches). -/
def versionBytesOf (pfx : List Char) : List Nat :=
  ((extendedPublicKeyVersions.find? (fun e => decide (e.fst = pfx))).map Prod.snd).getD []

/-- `validatePrefix` of `src/keys.js`: `none` when the token is known, the
error message otherwise. -/
def validatePfx (pfx : List Char) (pfxType : String) : Option String :=
  if pfx ∈ versionTokens then none
  else some ("Invalid " ++ pfxType ++ " version for extended public key conversion")

/-- The `ConvertedExtendedPublicKey` result object of `src/keys.js`.  The
JavaScript error branches omit the `message` field; that absence is modelled
as the empty string. -/
structure ConversionResult where
  extendedPublicKey : List Char
  message : String := ""
  error : String := ""
deriving DecidableEq, Repr

/-- `extendedPublicKeyConvert` of `src/keys.js`.  `decode`/`encode` stand for
the external `bs58check` module: `decode` returns the decoded bytes or the
thrown error's message, `encode` is total (it never throws on a byte list).
Note the source derives the source token from the raw key but base58check-
decodes the trimmed key. -/
def extendedPublicKeyConvert (decode : List Char → Except String (List Nat))
    (encode : List Nat → List Char)
    (extendedPublicKey : List Char) (targetPfx : List Char) : ConversionResult :=
  match validatePfx targetPfx "target" with
  | some targetError => { extendedPublicKey := extendedPublicKey, error := targetError }
  | none =>
    let sourcePfx := extendedPublicKey.take 4
    match validatePfx sourcePfx "source" with
    | some sourceError => { extendedPublicKey := extendedPublicKey, error := sourceError }
    | none =>
      match decode (jsTrim extendedPublicKey) with
      | Except.error err =>
        { extendedPublicKey := extendedPublicKey,
          error := "Unable to convert extended public key: " ++ err }
      | Except.ok decodedExtendedPublicKey =>
        let extendedPublicKeyNoPfx := decodedExtendedPublicKey.drop 4
        let srcStr := String.mk sourcePfx
        let tgtStr := String.mk targetPfx
        { extendedPublicKey := encode (versionBytesOf targetPfx ++ extendedPublicKeyNoPfx),
          message := "Your extended public key has been converted from " ++ srcStr
            ++ " to " ++ tgtStr,
          error := "" }

/-- Variant of `extendedPublicKeyConvert` that decodes the raw key instead of
the trimmed key; used only to state that whitespace-free inputs are unaffected
by the trim. -/
def extendedPublicKeyConvertUntrimmed (decode : List Char → Except String (List Nat))
    (encode : List Nat → List Char)
    (extendedPublicKey : List Char) (targetPfx : List Char) : ConversionResult :=
  match validatePfx targetPfx "target" with
  | some targetError => { extendedPublicKey := extendedPublicKey, error := targetError }
  | none =>
    let sourcePfx := extendedPublicKey.take 4
    match validatePfx sourcePfx "source" with
    | some sourceError => { extendedPublicKey := extendedPublicKey, error := sourceError }
    | none =>
      match decode extendedPublicKey with
      | Except.error err =>
        { extendedPublicKey := extendedPublicKey,
          error := "Unable to convert extended public key: " ++ err }
      | Except.ok decodedExtendedPublicKey =>
        let extendedPublicKeyNoPfx := decodedExtendedPublicKey.drop 4
        let srcStr := String.mk sourcePfx
        let tgtStr := String.mk targetPfx
        { extendedPublicKey := encode (versionBytesOf targetPfx ++ extendedPublicKeyNoPfx),
          message := "Your extended public key has been converted from " ++ srcStr
            ++ " to " ++ tgtStr,
          error := "" }

/-- `preExtendedPublicKeyValidation` of `src/keys.js` (the JavaScript
`null`/`undefined`/`''` blank cases collapse to the empty list here). -/
def preExtendedPublicKeyValidation (extendedPublicKey : List Char) : String :=
  if extendedPublicKey = [] then "Extended public key cannot be blank."
  else if extendedPublicKey.length < 111 then "Extended public key length is too short."
  else ""

/-- `extendedPublicKeyNetworkValidateion` of `src/keys.js` (source spelling
kept). -/
def extendedPublicKeyNetworkValidateion (extendedPublicKey : List Char)
    (network : Network) : String :=
  let requiredPfx :=
    if network = Network.TESTNET then "'xpub' or 'tpub'" else "'xpub'"
  let notXpubError := "Extended public key must begin with " ++ requiredPfx ++ "."
  let pfx := extendedPublicKey.take 4
  if pfx = ['x','p','u','b'] ∨ (network = Network.TESTNET ∧ pfx = ['t','p','u','b']) then ""
  else notXpubError

/-- `validateExtendedPublicKey` of `src/keys.js`.  `bip32Err` stands for the
external `bip32.fromBase58(inputString, networkData(network))` call: `none`
when deserialization succeeds, the thrown error's rendering otherwise. -/
def validateExtendedPublicKey (bip32Err : List Char → Network → Option String)
    (inputString : List Char) (network : Network) : String :=
  let preliminaryErrors := preExtendedPublicKeyValidation inputString
  if preliminaryErrors ≠ "" then preliminaryErrors
  else
    let networkError := extendedPublicKeyNetworkValidateion inputString network
    if networkError ≠ "" then networkError
    else
      match bip32Err inputString network with
      | some e => "Invalid extended public key: " ++ e
      | none => ""

/-- The canonical conversion target of `convertAndValidateExtendedPublicKey`:
`'tpub'` for TESTNET, `'xpub'` otherwise. -/
def canonicalTargetPfx (network : Network) : List Char :=
  if network = Network.TESTNET then ['t','p','u','b'] else ['x','p','u','b']

/-- `convertAndValidateExtendedPublicKey` of `src/keys.js`. -/
def convertAndValidateExtendedPublicKey (decode : List Char → Except String (List Nat))
    (encode : List Nat → List Char) (bip32Err : List Char → Network → Option String)
    (extendedPublicKey : List Char) (network : Network) : ConversionResult :=
  let targetPfx := canonicalTargetPfx network
  let preliminaryErrors := preExtendedPublicKeyValidation extendedPublicKey
  if preliminaryErrors ≠ "" then
    { extendedPublicKey := extendedPublicKey, error := preliminaryErrors }
  else if extendedPublicKeyNetworkValidateion extendedPublicKey network = ""
      ∧ validateExtendedPublicKey bip32Err extendedPublicKey network = "" then
    { extendedPublicKey := extendedPublicKey, message := "", error := "" }
  else
    let convertedExtendedPublicKey :=
      extendedPublicKeyConvert decode encode extendedPublicKey targetPfx
    if convertedExtendedPublicKey.extendedPublicKey ≠ extendedPublicKey then
      let extendedPublicKeyValidation :=
        validateExtendedPublicKey bip32Err convertedExtendedPublicKey.extendedPublicKey network
      if extendedPublicKeyValidation = "" then convertedExtendedPublicKey
      else { extendedPublicKey := extendedPublicKey, error := extendedPublicKeyValidation }
    else convertedExtendedPublicKey

/-- `compressPublicKey` of `src/keys.js`: read the hex, pick `0x03`/`0x02` from
the low bit of byte 64 (an out-of-range index reads as 0, as JavaScript's
`undefined & 1`), and emit the prefix byte followed by bytes 1..32. -/
def compressPublicKey (publicKey : List Char) : List Char :=
  let pubkeyBuffer := bufferFromHex publicKey
  let pfx := if (pubkeyBuffer.getD 64 0) % 2 ≠ 0 then 3 else 2
  hexEncode (pfx :: (pubkeyBuffer.drop 1).take 32)

/-- Modelled from the spec: the address-type constants (`P2SH`, `P2WSH`,
`P2SH_P2WSH`) exposed by the external script-type modules; the signing code
only compares against them. -/
inductive AddressType where
  | P2SH
  | P2WSH
  | P2SH_P2WSH
deriving DecidableEq, Repr

/-- Modelled from the spec: the external multisig descriptor, an opaque value
exposing a required-signer count, an ordered public-key list, an address type
and derivable redeem/witness scripts (here kept as opaque hex strings).  The
accessors `multisigRequiredSigners`, `multisigPublicKeys`,
`multisigAddressType`, `multisigRedeemScript` and `multisigWitnessScript` of
the source become field projections. -/
structure Multisig where
  requiredSigners : Nat
  publicKeys : List String
  addressType : AddressType
  redeemScriptHex : String
  witnessScriptHex : String
deriving DecidableEq, Repr

/-- Per-input unlocking data written into the signed transaction: the
scriptSig as a list of script tokens (opcode or hex push per element) and the
witness stack as a list of hex strings. -/
structure InputUnlock where
  scriptSig : List String := []
  witness : List String := []
deriving DecidableEq, Repr

/-- The candidate signatures collected for input `i`:
`transactionSignatures.map((ts) => ts[i]).filter(Boolean)` of the source
(a missing entry reads as the empty string, the JavaScript falsy case). -/
def candidateSignatures (transactionSignatures : List (List String)) (i : Nat) :
    List String :=
  (transactionSignatures.map (fun row => row.getD i "")).filter (fun s => decide (s ≠ ""))

/-- Lookup in the `inputSignaturesByPublicKey` object, modelled as an
association list in insertion order. -/
def lookupSig : List (String × String) → String → Option String
  | [], _ => none
  | (pk, s) :: rest, k => if pk = k then some s else lookupSig rest k

/-- The `inputSignatures.forEach` loop of `signedMultisigTransaction` that
builds `inputSignaturesByPublicKey`: resolve each candidate signature to a
public key via the external `validateMultisigSignature` collaborator
(`Except.error` models a thrown exception, `Except.ok none` a falsy return),
failing on unresolvable or duplicate signatures. -/
def buildSignaturesByPublicKey (resolve : Nat → String → Except String (Option String))
    (inputIndex : Nat) :
    List String → List (String × String) → Except String (List (String × String))
  | [], acc => Except.ok acc
  | inputSignature :: rest, acc =>
    match resolve inputIndex inputSignature with
    | Except.error e =>
      Except.error ("Invalid signature for input " ++ toString (inputIndex + 1)
        ++ ": " ++ inputSignature ++ " (" ++ e ++ ")")
    | Except.ok none =>
      Except.error ("Invalid signature for input " ++ toString (inputIndex + 1)
        ++ ": " ++ inputSignature)
    | Except.ok (some publicKey) =>
      if (lookupSig acc publicKey).isSome then
        Except.error ("Duplicate signature for input " ++ toString (inputIndex + 1)
          ++ ": " ++ inputSignature)
      else
        buildSignaturesByPublicKey resolve inputIndex rest (acc ++ [(publicKey, inputSignature)])

/-- The `sortedSignatures` projection of the source: map the descriptor's
ordered public-key list through the signature map, keeping an entry only when
it is present and its sighash-stripped form is truthy (non-empty). -/
def sortedSignaturesFor (strip : String → String) (sigMap : List (String × String))
    (publicKeys : List String) : List String :=
  (publicKeys.map (fun publicKey => lookupSig sigMap publicKey)).filterMap
    (fun o =>
      match o with
      | some signature => if strip signature ≠ "" then some signature else none
      | none => none)

/-- `multisigWitnessField` of the source: an empty placeholder element, each
sorted signature with the SIGHASH_ALL byte re-appended, then the serialized
witness script. -/
def multisigWitnessField (strip : String → String) (multisig : Multisig)
    (sortedSignatures : List String) : List String :=
  ([""] ++ sortedSignatures.map (fun s => strip s ++ "01")) ++ [multisig.witnessScriptHex]

/-- The scriptSig assembled by `multisigScriptSig` of the source, as script
tokens: `OP_0` followed by each sorted signature with the SIGHASH_ALL byte
appended. -/
def multisigScriptSigTokens (strip : String → String)
    (signersInputSignatures : List String) : List String :=
  "OP_0" :: signersInputSignatures.map (fun signature => strip signature ++ "01")

/-- The per-input body of the `for` loop of `signedMultisigTransaction`:
collect candidates, check the required count, resolve and deduplicate, order
by the descriptor's public-key list, then branch on the address type. -/
def signedInputUnlock (strip : String → String)
    (resolve : Nat → String → Except String (Option String))
    (transactionSignatures : List (List String)) (inputIndex : Nat)
    (multisig : Multisig) : Except String InputUnlock :=
  let inputSignatures := candidateSignatures transactionSignatures inputIndex
  let requiredSignatures := multisig.requiredSigners
  if inputSignatures.length < requiredSignatures then
    let ii := toString (inputIndex + 1)
    let req := toString requiredSignatures
    let rcv := toString inputSignatures.length
    Except.error ("Insufficient signatures for input  " ++ ii ++ ": require " ++ req
      ++ ",  received " ++ rcv ++ ".")
  else
    match buildSignaturesByPublicKey resolve inputIndex inputSignatures [] with
    | Except.error e => Except.error e
    | Except.ok inputSignaturesByPublicKey =>
      let sortedSignatures :=
        sortedSignaturesFor strip inputSignaturesByPublicKey multisig.publicKeys
      match multisig.addressType with
      | AddressType.P2WSH =>
        Except.ok { witness := multisigWitnessField strip multisig sortedSignatures }
      | AddressType.P2SH_P2WSH =>
        Except.ok { witness := multisigWitnessField strip multisig sortedSignatures,
                    scriptSig := [multisig.redeemScriptHex] }
      | AddressType.P2SH =>
        Except.ok { scriptSig := multisigScriptSigTokens strip sortedSignatures }

/-- The `transactionSignatures.forEach` length check of the source: the first
signer row shorter than the input count yields an error naming its 1-based
index. -/
def checkTransactionSignatureLengths (numInputs : Nat) :
    List (List String) → Nat → Option String
  | [], _ => none
  | row :: rest, idx =>
    if row.length < numInputs then
      let ti := toString (idx + 1)
      let req := toString numInputs
      let rcv := toString row.length
      some ("Insufficient input signatures for transaction signature " ++ ti
        ++ ": require " ++ req ++ ", received " ++ rcv ++ ".")
    else checkTransactionSignatureLengths numInputs rest (idx + 1)

/-- The per-input loop of `signedMultisigTransaction`, threading the 0-based
input index. -/
def signAllInputs (strip : String → String)
    (resolve : Nat → String → Except String (Option String))
    (transactionSignatures : List (List String)) :
    List Multisig → Nat → Except String (List InputUnlock)
  | [], _ => Except.ok []
  | multisig :: rest, inputIndex =>
    match signedInputUnlock strip resolve transactionSignatures inputIndex multisig with
    | Except.error e => Except.error e
    | Except.ok unlock =>
      match signAllInputs strip resolve transactionSignatures rest (inputIndex + 1) with
      | Except.error e => Except.error e
      | Except.ok unlocks => Except.ok (unlock :: unlocks)

/-- `signedMultisigTransaction` of the source, restricted to the data this
module itself computes: the unsigned-transaction construction and the
input/output validation are external collaborators (`unsignedMultisigTransaction`
delegates to `validateMultisigInputs`/`validateOutputs` and the transaction
codec), so an input is represented by its multisig descriptor and the result
by the per-input unlocking data written into the transaction. -/
def signedMultisigTransaction (strip : String → String)
    (resolve : Nat → String → Except String (Option String))
    (inputs : List Multisig) (transactionSignatures : List (List String)) :
    Except String (List InputUnlock) :=
  if transactionSignatures.length = 0 then
    Except.error "At least one transaction signature is required."
  else
    match checkTransactionSignatureLengths inputs.length transactionSignatures 0 with
    | some e => Except.error e
    | none => signAllInputs strip resolve transactionSignatures inputs 0

/-- The invariant the spec states for `ConvertedExtendedPublicKey` results:
never both a non-empty message and a non-empty error, and a non-empty error
leaves the key unchanged from the input. -/
def resultInvariant (r : ConversionResult) (input : List Char) : Prop :=
  ¬(r.message ≠ "" ∧ r.error ≠ "") ∧ (r.error ≠ "" → r.extendedPublicKey = input)

/-- The descriptor-ordered projection of the collected candidate signatures of
one input: for each descriptor public key, in order, the first candidate that
resolves to it (kept only when its sighash-stripped form is non-empty). -/
def orderedBy (strip : String → String) (keyOf : String → String)
    (cands : List String) (publicKeys : List String) : List String :=
  publicKeys.filterMap
    (fun pk =>
      match cands.find? (fun s => decide (keyOf s = pk)) with
      | some s => if strip s ≠ "" then some s else none
      | none => none)

/-- The unlocking data `signedMultisigTransaction` writes for one input, as a
function of the address type and the ordered signatures. -/
def expectedUnlock (strip : String → String) (multisig : Multisig)
    (sortedSignatures : List String) : InputUnlock :=
  match multisig.addressType with
  | AddressType.P2WSH =>
    { witness := multisigWitnessField strip multisig sortedSignatures }
  | AddressType.P2SH_P2WSH =>
    { witness := multisigWitnessField strip multisig sortedSignatures,
      scriptSig := [multisig.redeemScriptHex] }
  | AddressType.P2SH =>
    { scriptSig := multisigScriptSigTokens strip sortedSignatures }

/-- Well-signedness of one input: every collected candidate resolves to a
public key (named by `keyOf`), resolved keys are pairwise distinct, at least
the required number of candidates was collected, and stripping a candidate
never yields the empty string. -/
abbrev InputHyps (strip : String → String)
    (resolve : Nat → String → Except String (Option String))
    (transactionSignatures : List (List String)) (keyOf : Nat → String → String)
    (i : Nat) (multisig : Multisig) : Prop :=
  (∀ s ∈ candidateSignatures transactionSignatures i,
      resolve i s = Except.ok (some (keyOf i s)))
  ∧ ((candidateSignatures transactionSignatures i).map (keyOf i)).Nodup
  ∧ multisig.requiredSigners ≤ (candidateSignatures transactionSignatures i).length
  ∧ (∀ s ∈ candidateSignatures transactionSignatures i, strip s ≠ "")
  ∧ (∀ s ∈ candidateSignatures transactionSignatures i,
      keyOf i s ∈ multisig.publicKeys)

/-- Toy stand-in for `bs58check.encode`, used to instantiate witnesses: a byte
list whose first four bytes match a version row is rendered as that row's
token followed by the remaining bytes in hex. -/
def toyEncode (b : List Nat) : List Char :=
  match extendedPublicKeyVersions.find? (fun e => decide (e.snd = b.take 4)) with
  | some e => e.fst ++ hexEncode (b.drop 4)
  | none => hexEncode b

/-- Toy stand-in for `bs58check.decode`, inverse to `toyEncode` on
token-prefixed strings and failing otherwise. -/
def toyDecode (s : List Char) : Except String (List Nat) :=
  match extendedPublicKeyVersions.find? (fun e => decide (e.fst = s.take 4)) with
  | some e => Except.ok (e.snd ++ bufferFromHex (s.drop 4))
  | none => Except.error "Non-base58 character"

/-- Toy stand-in for the `bip32.fromBase58` collaborator that accepts exactly
one fixed 111-character key. -/
def toyBip32Err (k : List Char) (_ : Network) : Option String :=
  if k = ['x','p','u','b'] ++ List.replicate 107 'A' then none else some "unknown"

/-- A fixed 111-character key accepted by `toyBip32Err`. -/
def witXpub111 : List Char := ['x','p','u','b'] ++ List.replicate 107 'A'

/-- A ypub-prefixed 112-character key produced by the toy codec, long enough
to pass the preliminary length check. -/
def witYpub112 : List Char :=
  toyEncode (versionBytesOf ['y','p','u','b'] ++ List.replicate 54 0)

/-- Toy stand-in for `bip32.fromBase58` that rejects every key. -/
def toyBip32Reject : List Char → Network → Option String := fun _ _ => some "nope"

/-- A 65-byte uncompressed public key in hex (byte 0 is 4, byte 64 is 5). -/
def witUncompressed : List Char := hexEncode (4 :: (List.replicate 63 0 ++ [5]))

/-- Identity sighash-stripping collaborator for concrete instances. -/
def stripId : String → String := fun s => s

/-- A 1-of-1 legacy multisig descriptor used in concrete instances. -/
def mC8 : Multisig :=
  { requiredSigners := 1, publicKeys := ["K"], addressType := AddressType.P2SH,
    redeemScriptHex := "", witnessScriptHex := "" }

/-- Resolution collaborator that reports every signature as unresolvable. -/
def resolveNone : Nat → String → Except String (Option String) := fun _ _ => Except.ok none

/-- Two 1-of-1 inputs sharing a descriptor. -/
def inputsC8 : List Multisig := [mC8, mC8]

/-- A single signer row carrying no usable signature for either input. -/
def matrixC8 : List (List String) := [["", ""]]

/-- One 1-of-1 input. -/
def inputsC8w : List Multisig := [mC8]

/-- A single signer row with no usable signature for the single input. -/
def matrixC8w : List (List String) := [[""]]

/-- Resolution collaborator for the duplicate-signature counterexample: the
signature `bad` throws, every other signature resolves to the key `K`. -/
def resolveC9 : Nat → String → Except String (Option String) := fun _ s =>
  if s = "bad" then Except.error "boom" else Except.ok (some "K")

/-- Three signer rows for one input: an unresolvable signature first, then two
distinct signatures that both resolve to `K`. -/
def matrixC9 : List (List String) := [["bad"], ["s1"], ["s2"]]

/-- Resolution collaborator that resolves every signature to the key `K`. -/
def resolveC9w : Nat → String → Except String (Option String) := fun _ _ =>
  Except.ok (some "K")

/-- Two signer rows for one input whose signatures both resolve to `K`. -/
def matrixC9w : List (List String) := [["s1"], ["s2"]]

/-- A 2-of-2 legacy descriptor with ordered public keys `A`, `B`. -/
def mC1 : Multisig :=
  { requiredSigners := 2, publicKeys := ["A", "B"], addressType := AddressType.P2SH,
    redeemScriptHex := "", witnessScriptHex := "" }

/-- One 2-of-2 input. -/
def inputsC1 : List Multisig := [mC1]

/-- Key resolution used for the ordering instance: `sA` belongs to `A`, every
other signature to `B`. -/
def keyOfC1 : Nat → String → String := fun _ s => if s = "sA" then "A" else "B"

/-- Resolution collaborator agreeing with `keyOfC1`. -/
def resolveC1 : Nat → String → Except String (Option String) := fun i s =>
  Except.ok (some (keyOfC1 i s))

/-- Signer rows submitting `B`'s signature before `A`'s. -/
def matrixC1 : List (List String) := [["sB"], ["sA"]]

/-- The same signer rows in the opposite order. -/
def matrixC1perm : List (List String) := [["sA"], ["sB"]]

instance {ε α : Type} [DecidableEq ε] [DecidableEq α] : DecidableEq (Except ε α) := fun x y =>
  match x, y with
  | Except.ok a, Except.ok b =>
    if h : a = b then isTrue (by rw [h]) else isFalse (fun he => h (Except.ok.inj he))
  | Except.error a, Except.error b =>
    if h : a = b then isTrue (by rw [h]) else isFalse (fun he => h (Except.error.inj he))
  | Except.ok _, Except.error _ => isFalse (fun he => Except.noConfusion he)
  | Except.error _, Except.ok _ => isFalse (fun he => Except.noConfusion he)

/-! ### Helper lemmas -/

theorem append_ne_empty_left (s t : String) (h : s ≠ "") : s ++ t ≠ "" := by
  intro he
  apply h
  cases s with
  | mk ls =>
  cases t with
  | mk lt =>
  have hd : ls ++ lt = ([] : List Char) := congrArg String.data he
  have hl : ls = [] := (List.append_eq_nil.mp hd).1
  rw [hl]

theorem extendedPublicKeyConvert_invariant (decode : List Char → Except String (List Nat))
    (encode : List Nat → List Char) (key targetPfx : List Char) :
    resultInvariant (extendedPublicKeyConvert decode encode key targetPfx) key := by
  unfold extendedPublicKeyConvert
  cases h1 : validatePfx targetPfx "target" with
  | some e =>
    simp only [h1]
    exact ⟨fun h => h.1 rfl, fun _ => rfl⟩
  | none =>
    simp only [h1]
    cases h2 : validatePfx (key.take 4) "source" with
    | some e =>
      simp only [h2]
      exact ⟨fun h => h.1 rfl, fun _ => rfl⟩
    | none =>
      simp only [h2]
      cases h3 : decode (jsTrim key) with
      | error err =>
        simp only [h3]
        exact ⟨fun h => h.1 rfl, fun _ => rfl⟩
      | ok dec =>
        simp only [h3]
        exact ⟨fun h => h.2 rfl, fun he => absurd rfl he⟩

/-- C3: a `ConversionResult` from `extendedPublicKeyConvert` or from
`convertAndValidateExtendedPublicKey` never carries both a non-empty message
and a non-empty error, and whenever its error is non-empty its
`extendedPublicKey` field is the input key unchanged. -/
theorem conversionResult_invariant (decode : List Char → Except String (List Nat))
    (encode : List Nat → List Char) (bip32Err : List Char → Network → Option String)
    (key targetPfx : List Char) (network : Network) :
    resultInvariant (extendedPublicKeyConvert decode encode key targetPfx) key
    ∧ resultInvariant
        (convertAndValidateExtendedPublicKey decode encode bip32Err key network) key := by
  refine ⟨extendedPublicKeyConvert_invariant decode encode key targetPfx, ?_⟩
  unfold convertAndValidateExtendedPublicKey
  simp only []
  by_cases hp : preExtendedPublicKeyValidation key ≠ ""
  · rw [if_pos hp]
    exact ⟨fun h => h.1 rfl, fun _ => rfl⟩
  · rw [if_neg hp]
    by_cases hc : extendedPublicKeyNetworkValidateion key network = ""
        ∧ validateExtendedPublicKey bip32Err key network = ""
    · rw [if_pos hc]
      exact ⟨fun h => h.2 rfl, fun he => absurd rfl he⟩
    · rw [if_neg hc]
      by_cases hch : (extendedPublicKeyConvert decode encode key
          (canonicalTargetPfx network)).extendedPublicKey ≠ key
      · rw [if_pos hch]
        by_cases hv : validateExtendedPublicKey bip32Err
            (extendedPublicKeyConvert decode encode key
              (canonicalTargetPfx network)).extendedPublicKey network = ""
        · rw [if_pos hv]
          exact extendedPublicKeyConvert_invariant decode encode key _
        · rw [if_neg hv]
          exact ⟨fun h => h.1 rfl, fun _ => rfl⟩
      · rw [if_neg hch]
        exact extendedPublicKeyConvert_invariant decode encode key _

/-- C6: an already-canonical key (length at least 111, prefix accepted for the
network, BIP32-deserializable) is returned unchanged with empty message and
empty error by `convertAndValidateExtendedPublicKey`. -/
theorem convertAndValidate_canonical_id (decode : List Char → Except String (List Nat))
    (encode : List Nat → List Char) (bip32Err : List Char → Network → Option String)
    (key : List Char) (network : Network)
    (hlen : 111 ≤ key.length)
    (hpfx : key.take 4 = ['x','p','u','b']
      ∨ (network = Network.TESTNET ∧ key.take 4 = ['t','p','u','b']))
    (hbip : bip32Err key network = none) :
    convertAndValidateExtendedPublicKey decode encode bip32Err key network
      = { extendedPublicKey := key, message := "", error := "" } := by
  have hne : key ≠ [] := by
    intro h
    rw [h] at hlen
    simp at hlen
  have hpre : preExtendedPublicKeyValidation key = "" := by
    unfold preExtendedPublicKeyValidation
    rw [if_neg hne, if_neg (by omega)]
  have hnet : extendedPublicKeyNetworkValidateion key network = "" := by
    unfold extendedPublicKeyNetworkValidateion
    simp only [if_pos hpfx]
  have hval : validateExtendedPublicKey bip32Err key network = "" := by
    simp [validateExtendedPublicKey, hpre, hnet, hbip]
  simp [convertAndValidateExtendedPublicKey, hpre, hnet, hval]

theorem convertAndValidate_canonical_id_witness :
    (111 ≤ witXpub111.length)
    ∧ convertAndValidateExtendedPublicKey toyDecode toyEncode toyBip32Err
        witXpub111 Network.MAINNET
      = { extendedPublicKey := witXpub111, message := "", error := "" } :=
  ⟨by decide,
   convertAndValidate_canonical_id toyDecode toyEncode toyBip32Err witXpub111
     Network.MAINNET (by decide) (Or.inl (by decide)) (by decide)⟩

/-- C7: when `convertAndValidateExtendedPublicKey` reaches the conversion
step, the conversion changes the string, and the converted key fails
validation, the result carries the original input key together with the
validation error produced on the converted key. -/
theorem convertAndValidate_failed_conversion_keeps_original
    (decode : List Char → Except String (List Nat)) (encode : List Nat → List Char)
    (bip32Err : List Char → Network → Option String) (key : List Char) (network : Network)
    (hpre : preExtendedPublicKeyValidation key = "")
    (hnotcanon : ¬(extendedPublicKeyNetworkValidateion key network = ""
        ∧ validateExtendedPublicKey bip32Err key network = ""))
    (hchanged : (extendedPublicKeyConvert decode encode key
        (canonicalTargetPfx network)).extendedPublicKey ≠ key)
    (hfail : validateExtendedPublicKey bip32Err
        (extendedPublicKeyConvert decode encode key
          (canonicalTargetPfx network)).extendedPublicKey network ≠ "") :
    convertAndValidateExtendedPublicKey decode encode bip32Err key network
      = { extendedPublicKey := key, message := "",
          error := validateExtendedPublicKey bip32Err
            (extendedPublicKeyConvert decode encode key
              (canonicalTargetPfx network)).extendedPublicKey network } := by
  simp [convertAndValidateExtendedPublicKey, hpre, hnotcanon, hchanged, hfail]

theorem convertAndValidate_failed_conversion_keeps_original_witness :
    ((extendedPublicKeyConvert toyDecode toyEncode witYpub112
        (canonicalTargetPfx Network.MAINNET)).extendedPublicKey ≠ witYpub112)
    ∧ convertAndValidateExtendedPublicKey toyDecode toyEncode toyBip32Reject
        witYpub112 Network.MAINNET
      = { extendedPublicKey := witYpub112, message := "",
          error := validateExtendedPublicKey toyBip32Reject
            (extendedPublicKeyConvert toyDecode toyEncode witYpub112
              (canonicalTargetPfx Network.MAINNET)).extendedPublicKey Network.MAINNET } :=
  ⟨by decide,
   convertAndValidate_failed_conversion_keeps_original toyDecode toyEncode toyBip32Reject
     witYpub112 Network.MAINNET (by decide) (by decide) (by decide) (by decide)⟩

theorem dropWhile_eq_self_of_false (p : Char → Bool) (l : List Char)
    (h : ∀ c ∈ l, p c = false) : l.dropWhile p = l := by
  cases l with
  | nil => rfl
  | cons a t => simp [List.dropWhile_cons, h a (List.mem_cons_self a t)]

theorem jsTrim_eq_self (s : List Char) (h : ∀ c ∈ s, isJsWs c = false) :
    jsTrim s = s := by
  unfold jsTrim
  rw [dropWhile_eq_self_of_false _ _ h]
  rw [dropWhile_eq_self_of_false _ _ (fun c hc => h c (List.mem_reverse.mp hc))]
  exact List.reverse_reverse s

theorem ws_head_not_token (c : Char) (l : List Char) (hws : isJsWs c = true) :
    (c :: l) ∉ versionTokens := by
  intro hmem
  simp only [versionTokens, extendedPublicKeyVersions, List.map_cons, List.map_nil,
    List.mem_cons, List.not_mem_nil, or_false] at hmem
  rcases hmem with h|h|h|h|h|h|h|h|h|h <;>
  · have hc := congrArg (fun xs : List Char => xs.headD ' ') h
    simp only [List.headD_cons] at hc
    rw [hc] at hws
    exact absurd hws (by decide)

/-- C10: `extendedPublicKeyConvert` derives the source prefix from the raw
input but decodes the trimmed input, so a key with leading whitespace is
rejected with the source-version error and returned unchanged even when its
trimmed form is decodable with a known prefix; whitespace-free inputs behave
exactly as if no trim were applied. -/
theorem extendedPublicKeyConvert_trim_mismatch
    (decode : List Char → Except String (List Nat)) (encode : List Nat → List Char)
    (c : Char) (rest : List Char) (targetPfx : List Char) (b : List Nat)
    (key2 : List Char)
    (hws : isJsWs c = true)
    (htgt : targetPfx ∈ versionTokens)
    (hdec : decode (jsTrim (c :: rest)) = Except.ok b)
    (htrimPfx : (jsTrim (c :: rest)).take 4 ∈ versionTokens)
    (hnows : ∀ ch ∈ key2, isJsWs ch = false) :
    extendedPublicKeyConvert decode encode (c :: rest) targetPfx
      = { extendedPublicKey := c :: rest, message := "",
          error := "Invalid source version for extended public key conversion" }
    ∧ extendedPublicKeyConvert decode encode key2 targetPfx
      = extendedPublicKeyConvertUntrimmed decode encode key2 targetPfx := by
  constructor
  · have hsrc : validatePfx ((c :: rest).take 4) "source"
        = some "Invalid source version for extended public key conversion" := by
      unfold validatePfx
      rw [if_neg]
      · rfl
      · cases rest with
        | nil => exact ws_head_not_token c [] hws
        | cons d t => exact ws_head_not_token c _ hws
    have htgtnone : validatePfx targetPfx "target" = none := by
      unfold validatePfx
      rw [if_pos htgt]
    unfold extendedPublicKeyConvert
    simp only [htgtnone, hsrc]
  · unfold extendedPublicKeyConvert extendedPublicKeyConvertUntrimmed
    rw [jsTrim_eq_self key2 hnows]

theorem extendedPublicKeyConvert_trim_mismatch_witness :
    (toyDecode (jsTrim (' ' :: witYpub112)) = Except.ok
        (versionBytesOf ['y','p','u','b'] ++ List.replicate 54 0))
    ∧ (extendedPublicKeyConvert toyDecode toyEncode (' ' :: witYpub112) ['x','p','u','b']
        = { extendedPublicKey := ' ' :: witYpub112, message := "",
            error := "Invalid source version for extended public key conversion" }
      ∧ extendedPublicKeyConvert toyDecode toyEncode witYpub112 ['x','p','u','b']
        = extendedPublicKeyConvertUntrimmed toyDecode toyEncode witYpub112 ['x','p','u','b']) :=
  ⟨by decide,
   extendedPublicKeyConvert_trim_mismatch toyDecode toyEncode ' ' witYpub112
     ['x','p','u','b'] (versionBytesOf ['y','p','u','b'] ++ List.replicate 54 0)
     witYpub112 (by decide) (by decide) (by decide) (by decide) (by decide)⟩

/-- C2: `validateExtendedPublicKey` returns the empty string exactly when the
key's 4-character prefix is in the network's canonical set and the key
deserializes as BIP32 material under that network (given the collaborator
fact that a BIP32-deserializable string is at least 111 characters long);
otherwise it returns a non-empty message chosen with priority blank, then
too-short, then wrong-prefix, then structurally-invalid. -/
theorem validateExtendedPublicKey_spec (bip32Err : List Char → Network → Option String)
    (key : List Char) (network : Network)
    (hb : bip32Err key network = none → 111 ≤ key.length) :
    (validateExtendedPublicKey bip32Err key network = ""
      ↔ ((key.take 4 = ['x','p','u','b']
            ∨ (network = Network.TESTNET ∧ key.take 4 = ['t','p','u','b']))
          ∧ bip32Err key network = none))
    ∧ (key = [] →
        validateExtendedPublicKey bip32Err key network
          = "Extended public key cannot be blank.")
    ∧ (key ≠ [] → key.length < 111 →
        validateExtendedPublicKey bip32Err key network
          = "Extended public key length is too short.")
    ∧ (key ≠ [] → ¬ key.length < 111 →
        ¬(key.take 4 = ['x','p','u','b']
            ∨ (network = Network.TESTNET ∧ key.take 4 = ['t','p','u','b'])) →
        validateExtendedPublicKey bip32Err key network
          = "Extended public key must begin with "
            ++ (if network = Network.TESTNET then "'xpub' or 'tpub'" else "'xpub'")
            ++ ".")
    ∧ (∀ e, key ≠ [] → ¬ key.length < 111 →
        (key.take 4 = ['x','p','u','b']
          ∨ (network = Network.TESTNET ∧ key.take 4 = ['t','p','u','b'])) →
        bip32Err key network = some e →
        validateExtendedPublicKey bip32Err key network
          = "Invalid extended public key: " ++ e) := by
  by_cases hk : key = []
  · have hv : validateExtendedPublicKey bip32Err key network
        = "Extended public key cannot be blank." := by
      simp [validateExtendedPublicKey, preExtendedPublicKeyValidation, hk]
    refine ⟨?_, fun _ => hv, fun h => absurd hk h, fun h => absurd hk h,
      fun e h => absurd hk h⟩
    rw [hv]
    constructor
    · intro h
      exact absurd h (by decide)
    · rintro ⟨-, hn⟩
      have := hb hn
      rw [hk] at this
      simp at this
  · by_cases hlen : key.length < 111
    · have hv : validateExtendedPublicKey bip32Err key network
          = "Extended public key length is too short." := by
        simp [validateExtendedPublicKey, preExtendedPublicKeyValidation, hk, hlen]
      refine ⟨?_, fun h => absurd h hk, fun _ _ => hv,
        fun _ hl => absurd hlen hl, fun e _ hl => absurd hlen hl⟩
      rw [hv]
      constructor
      · intro h
        exact absurd h (by decide)
      · rintro ⟨-, hn⟩
        exact absurd (hb hn) (by omega)
    · have hpre : preExtendedPublicKeyValidation key = "" := by
        simp [preExtendedPublicKeyValidation, hk, hlen]
      by_cases hpfx : (key.take 4 = ['x','p','u','b']
          ∨ (network = Network.TESTNET ∧ key.take 4 = ['t','p','u','b']))
      · have hnet : extendedPublicKeyNetworkValidateion key network = "" := by
          unfold extendedPublicKeyNetworkValidateion
          simp only [if_pos hpfx]
        cases hbip : bip32Err key network with
        | none =>
          have hv : validateExtendedPublicKey bip32Err key network = "" := by
            simp [validateExtendedPublicKey, hpre, hnet, hbip]
          refine ⟨by rw [hv]; exact iff_of_true rfl ⟨hpfx, rfl⟩,
            fun h => absurd h hk, fun _ hl => absurd hl hlen,
            fun _ _ hnp => absurd hpfx hnp, fun e _ _ _ hsome => ?_⟩
          exact absurd hsome (by simp)
        | some e0 =>
          have hv : validateExtendedPublicKey bip32Err key network
              = "Invalid extended public key: " ++ e0 := by
            simp [validateExtendedPublicKey, hpre, hnet, hbip]
          refine ⟨?_, fun h => absurd h hk, fun _ hl => absurd hl hlen,
            fun _ _ hnp => absurd hpfx hnp, fun e _ _ _ hsome => ?_⟩
          · rw [hv]
            constructor
            · intro h
              exact absurd h (append_ne_empty_left _ _ (by decide))
            · rintro ⟨-, hn⟩
              exact absurd hn (by simp)
          · rw [hv, Option.some.inj hsome]
      · have hmsg : extendedPublicKeyNetworkValidateion key network
            = "Extended public key must begin with "
              ++ (if network = Network.TESTNET then "'xpub' or 'tpub'" else "'xpub'")
              ++ "." := by
          unfold extendedPublicKeyNetworkValidateion
          simp only [if_neg hpfx]
        have hne2 : extendedPublicKeyNetworkValidateion key network ≠ "" := by
          rw [hmsg]
          cases network <;> decide
        have hv : validateExtendedPublicKey bip32Err key network
            = extendedPublicKeyNetworkValidateion key network := by
          simp [validateExtendedPublicKey, hpre, hne2]
        refine ⟨?_, fun h => absurd h hk, fun _ hl => absurd hl hlen,
          fun _ _ _ => by rw [hv, hmsg], fun e _ _ hp => absurd hp hpfx⟩
        rw [hv]
        constructor
        · intro h
          exact absurd h hne2
        · rintro ⟨hp, -⟩
          exact absurd hp hpfx

theorem validateExtendedPublicKey_spec_witness :
    (toyBip32Err witXpub111 Network.MAINNET = none → 111 ≤ witXpub111.length)
    ∧ (validateExtendedPublicKey toyBip32Err witXpub111 Network.MAINNET = ""
        ↔ ((witXpub111.take 4 = ['x','p','u','b']
              ∨ (Network.MAINNET = Network.TESTNET
                  ∧ witXpub111.take 4 = ['t','p','u','b']))
            ∧ toyBip32Err witXpub111 Network.MAINNET = none)) :=
  ⟨by decide,
   (validateExtendedPublicKey_spec toyBip32Err witXpub111 Network.MAINNET (by decide)).1⟩

theorem hexVal_lt (c : Char) (v : Nat) (h : hexVal c = some v) : v < 16 := by
  unfold hexVal at h
  simp only [] at h
  split_ifs at h with h1 h2 h3 <;> simp only [Option.some.injEq] at h <;> omega

theorem bufferFromHex_lt : ∀ (s : List Char), ∀ x ∈ bufferFromHex s, x < 256
  | [] => by simp [bufferFromHex]
  | [c] => by simp [bufferFromHex]
  | c1 :: c2 :: rest => by
    intro x hx
    unfold bufferFromHex at hx
    cases h1 : hexVal c1 with
    | none =>
      rw [h1] at hx
      simp at hx
    | some hi =>
      cases h2 : hexVal c2 with
      | none =>
        rw [h1, h2] at hx
        simp at hx
      | some lo =>
        rw [h1, h2] at hx
        simp only [List.mem_cons] at hx
        rcases hx with rfl | hmem
        · have ha := hexVal_lt c1 hi h1
          have hb := hexVal_lt c2 lo h2
          omega
        · exact bufferFromHex_lt rest x hmem

theorem hexVal_hexDigitChar (n : Nat) (h : n < 16) :
    hexVal (hexDigitChar n) = some n := by
  interval_cases n <;> decide

theorem bufferFromHex_hexEncode (bs : List Nat) (h : ∀ x ∈ bs, x < 256) :
    bufferFromHex (hexEncode bs) = bs := by
  induction bs with
  | nil => rfl
  | cons b rest ih =>
    have hb : b < 256 := h b (List.mem_cons_self b rest)
    have h1 : hexVal (hexDigitChar (b / 16 % 16)) = some (b / 16 % 16) :=
      hexVal_hexDigitChar _ (by omega)
    have h2 : hexVal (hexDigitChar (b % 16)) = some (b % 16) :=
      hexVal_hexDigitChar _ (by omega)
    unfold hexEncode bufferFromHex
    rw [h1, h2]
    simp only []
    have hbeq : b / 16 % 16 * 16 + b % 16 = b := by omega
    rw [hbeq, ih (fun x hx => h x (List.mem_cons_of_mem b hx))]

/-- C5: on a hex string decoding to a 65-byte buffer whose first byte is 4,
`compressPublicKey` returns the hex of a 33-byte buffer whose first byte is 3
when the low bit of byte 64 is 1 (2 when it is 0), followed by bytes 1..32 of
the input. -/
theorem compressPublicKey_spec (pk : List Char)
    (h65 : (bufferFromHex pk).length = 65)
    (_h04 : (bufferFromHex pk).getD 0 0 = 4) :
    bufferFromHex (compressPublicKey pk)
      = (if (bufferFromHex pk).getD 64 0 % 2 = 1 then 3 else 2)
          :: ((bufferFromHex pk).drop 1).take 32
    ∧ (bufferFromHex (compressPublicKey pk)).length = 33 := by
  have hmem : ∀ x ∈ (if (bufferFromHex pk).getD 64 0 % 2 ≠ 0 then 3 else 2)
      :: ((bufferFromHex pk).drop 1).take 32, x < 256 := by
    intro x hx
    rcases List.mem_cons.mp hx with rfl | hx2
    · split <;> decide
    · exact bufferFromHex_lt pk x (List.drop_subset _ _ (List.take_subset _ _ hx2))
  have hrt := bufferFromHex_hexEncode _ hmem
  have hcomp : compressPublicKey pk
      = hexEncode ((if (bufferFromHex pk).getD 64 0 % 2 ≠ 0 then 3 else 2)
          :: ((bufferFromHex pk).drop 1).take 32) := rfl
  rw [hcomp, hrt]
  constructor
  · rw [if_congr (by omega : ((bufferFromHex pk).getD 64 0 % 2 ≠ 0
        ↔ (bufferFromHex pk).getD 64 0 % 2 = 1)) rfl rfl]
  · simp [List.length_take, List.length_drop, h65]

theorem compressPublicKey_spec_witness :
    ((bufferFromHex witUncompressed).length = 65)
    ∧ (bufferFromHex (compressPublicKey witUncompressed)
        = (if (bufferFromHex witUncompressed).getD 64 0 % 2 = 1 then 3 else 2)
            :: ((bufferFromHex witUncompressed).drop 1).take 32
      ∧ (bufferFromHex (compressPublicKey witUncompressed)).length = 33) :=
  ⟨by decide, compressPublicKey_spec witUncompressed (by decide) (by decide)⟩

theorem versionBytesOf_length : ∀ p ∈ versionTokens, (versionBytesOf p).length = 4 := by
  decide

/-- C4: converting a decodable key with a known prefix to P and then to Q
yields the same key as converting it to Q directly, given the base58check
collaborator contract (round-trip on encoded values, whitespace-free encoded
output, and the encoded version bytes rendering as the prefix token). -/
theorem extendedPublicKeyConvert_roundtrip
    (decode : List Char → Except String (List Nat)) (encode : List Nat → List Char)
    (key : List Char) (P Q : List Char) (b : List Nat)
    (hP : P ∈ versionTokens) (hQ : Q ∈ versionTokens)
    (hsrc : key.take 4 ∈ versionTokens)
    (hdec : decode (jsTrim key) = Except.ok b)
    (hr1dec : decode (jsTrim (encode (versionBytesOf P ++ b.drop 4)))
        = Except.ok (versionBytesOf P ++ b.drop 4))
    (hr1pfx : (encode (versionBytesOf P ++ b.drop 4)).take 4 = P) :
    (extendedPublicKeyConvert decode encode
        (extendedPublicKeyConvert decode encode key P).extendedPublicKey Q).extendedPublicKey
      = (extendedPublicKeyConvert decode encode key Q).extendedPublicKey := by
  have hPnone : validatePfx P "target" = none := by
    unfold validatePfx
    rw [if_pos hP]
  have hQnone : validatePfx Q "target" = none := by
    unfold validatePfx
    rw [if_pos hQ]
  have hsrcnone : validatePfx (key.take 4) "source" = none := by
    unfold validatePfx
    rw [if_pos hsrc]
  have h1 : (extendedPublicKeyConvert decode encode key P).extendedPublicKey
      = encode (versionBytesOf P ++ b.drop 4) := by
    unfold extendedPublicKeyConvert
    simp only [hPnone, hsrcnone, hdec]
  have hPsrc : validatePfx ((encode (versionBytesOf P ++ b.drop 4)).take 4) "source"
      = none := by
    rw [hr1pfx]
    unfold validatePfx
    rw [if_pos hP]
  have h2 : (extendedPublicKeyConvert decode encode
      (encode (versionBytesOf P ++ b.drop 4)) Q).extendedPublicKey
      = encode (versionBytesOf Q ++ (versionBytesOf P ++ b.drop 4).drop 4) := by
    unfold extendedPublicKeyConvert
    simp only [hQnone, hPsrc, hr1dec]
  have h3 : (extendedPublicKeyConvert decode encode key Q).extendedPublicKey
      = encode (versionBytesOf Q ++ b.drop 4) := by
    unfold extendedPublicKeyConvert
    simp only [hQnone, hsrcnone, hdec]
  rw [h1, h2, h3]
  have hlenP : (versionBytesOf P).length = 4 := versionBytesOf_length P hP
  rw [← hlenP, List.drop_left]

theorem extendedPublicKeyConvert_roundtrip_witness :
    (toyDecode (jsTrim witYpub112) = Except.ok
        (versionBytesOf ['y','p','u','b'] ++ List.replicate 54 0))
    ∧ (extendedPublicKeyConvert toyDecode toyEncode
        (extendedPublicKeyConvert toyDecode toyEncode witYpub112
          ['z','p','u','b']).extendedPublicKey ['t','p','u','b']).extendedPublicKey
      = (extendedPublicKeyConvert toyDecode toyEncode witYpub112
          ['t','p','u','b']).extendedPublicKey :=
  ⟨by decide,
   extendedPublicKeyConvert_roundtrip toyDecode toyEncode witYpub112
     ['z','p','u','b'] ['t','p','u','b']
     (versionBytesOf ['y','p','u','b'] ++ List.replicate 54 0)
     (by decide) (by decide) (by decide) (by decide) (by decide) (by decide)⟩

/-! ### Lemmas on the signature-merging loop -/

theorem lookupSig_append (a b : List (String × String)) (k : String) :
    lookupSig (a ++ b) k
      = match lookupSig a k with
        | some v => some v
        | none => lookupSig b k := by
  induction a with
  | nil => rfl
  | cons p t ih =>
    cases p with
    | mk pk s =>
      by_cases h : pk = k
      · simp [lookupSig, h]
      · simp [lookupSig, h, ih]

theorem buildSig_ok_of (resolve : Nat → String → Except String (Option String))
    (i : Nat) (keyOf : String → String) (l : List String) :
    ∀ (acc : List (String × String)),
    (∀ s ∈ l, resolve i s = Except.ok (some (keyOf s))) →
    ((l.map keyOf).Nodup) →
    (∀ s ∈ l, lookupSig acc (keyOf s) = none) →
    buildSignaturesByPublicKey resolve i l acc
      = Except.ok (acc ++ l.map (fun s => (keyOf s, s))) := by
  induction l with
  | nil =>
    intro acc _ _ _
    simp [buildSignaturesByPublicKey]
  | cons s0 rest ih =>
    intro acc hres hnd hacc
    have h0 : resolve i s0 = Except.ok (some (keyOf s0)) :=
      hres s0 (List.mem_cons_self s0 rest)
    have hl0 : lookupSig acc (keyOf s0) = none := hacc s0 (List.mem_cons_self s0 rest)
    rw [List.map_cons, List.nodup_cons] at hnd
    unfold buildSignaturesByPublicKey
    rw [h0]
    simp only [hl0, Option.isSome_none, Bool.false_eq_true, if_false]
    rw [ih (acc ++ [(keyOf s0, s0)])
      (fun s hs => hres s (List.mem_cons_of_mem s0 hs)) hnd.2 ?_]
    · simp
    · intro s hs
      rw [lookupSig_append, hacc s (List.mem_cons_of_mem s0 hs)]
      have hne : keyOf s0 ≠ keyOf s := by
        intro he
        exact hnd.1 (he ▸ List.mem_map_of_mem keyOf hs)
      simp [lookupSig, hne]

theorem lookupSig_map (keyOf : String → String) (l : List String) (pk : String) :
    lookupSig (l.map (fun s => (keyOf s, s))) pk
      = l.find? (fun s => decide (keyOf s = pk)) := by
  induction l with
  | nil => rfl
  | cons a t ih =>
    by_cases h : keyOf a = pk
    · simp [lookupSig, List.find?, h]
    · simp [lookupSig, List.find?, h, ih]

theorem find?_eq_some_of_mem_nodup (f : String → String) (pk : String) :
    ∀ (l : List String), (l.map f).Nodup → ∀ s ∈ l, f s = pk →
      l.find? (fun x => decide (f x = pk)) = some s := by
  intro l
  induction l with
  | nil =>
    intro _ s hs
    cases hs
  | cons a t ih =>
    intro hnd s hs hf
    rw [List.map_cons, List.nodup_cons] at hnd
    by_cases ha : f a = pk
    · have hsa : s = a := by
        rcases List.mem_cons.mp hs with rfl | hst
        · rfl
        · exact absurd ((ha.trans hf.symm) ▸ List.mem_map_of_mem f hst) hnd.1
      rw [List.find?_cons_of_pos _ (by simp [ha]), hsa]
    · rcases List.mem_cons.mp hs with rfl | hst
      · exact absurd hf ha
      · rw [List.find?_cons_of_neg _ (by simp [ha])]
        exact ih hnd.2 s hst hf

theorem find?_congr_perm (f : String → String) (pk : String) (l l2 : List String)
    (hperm : l.Perm l2) (hnd : (l.map f).Nodup) :
    l.find? (fun x => decide (f x = pk)) = l2.find? (fun x => decide (f x = pk)) := by
  by_cases hex : ∃ s ∈ l, f s = pk
  · obtain ⟨s, hs, hf⟩ := hex
    rw [find?_eq_some_of_mem_nodup f pk l hnd s hs hf,
        find?_eq_some_of_mem_nodup f pk l2 ((hperm.map f).nodup hnd) s
          (hperm.mem_iff.mp hs) hf]
  · rw [List.find?_eq_none.mpr, List.find?_eq_none.mpr]
    · intro x hx
      simp only [decide_eq_true_eq]
      exact fun hf => hex ⟨x, hperm.mem_iff.mpr hx, hf⟩
    · intro x hx
      simp only [decide_eq_true_eq]
      exact fun hf => hex ⟨x, hx, hf⟩

theorem sortedSignaturesFor_eq_orderedBy (strip : String → String)
    (keyOf : String → String) (cands : List String) (pks : List String) :
    sortedSignaturesFor strip (cands.map (fun s => (keyOf s, s))) pks
      = orderedBy strip keyOf cands pks := by
  unfold sortedSignaturesFor orderedBy
  rw [List.filterMap_map]
  congr 1
  funext pk
  simp only [Function.comp]
  rw [lookupSig_map]

theorem signedInputUnlock_ok (strip : String → String)
    (resolve : Nat → String → Except String (Option String))
    (matrix : List (List String)) (i : Nat) (m : Multisig) (keyOf : String → String)
    (hres : ∀ s ∈ candidateSignatures matrix i,
      resolve i s = Except.ok (some (keyOf s)))
    (hnd : ((candidateSignatures matrix i).map keyOf).Nodup)
    (hcnt : m.requiredSigners ≤ (candidateSignatures matrix i).length) :
    signedInputUnlock strip resolve matrix i m
      = Except.ok (expectedUnlock strip m
          (orderedBy strip keyOf (candidateSignatures matrix i) m.publicKeys)) := by
  unfold signedInputUnlock
  simp only []
  rw [if_neg (by omega)]
  rw [buildSig_ok_of resolve i keyOf _ [] hres hnd (fun s _ => rfl)]
  simp only [List.nil_append]
  rw [sortedSignaturesFor_eq_orderedBy]
  unfold expectedUnlock
  cases m.addressType <;> rfl

theorem signAll_ok_of (strip : String → String)
    (resolve : Nat → String → Except String (Option String))
    (matrix : List (List String)) (keyOf : Nat → String → String) :
    ∀ (l : List Multisig) (j : Nat),
    (∀ k (hk : k < l.length),
      InputHyps strip resolve matrix keyOf (j + k) (l.get ⟨k, hk⟩)) →
    ∃ us, signAllInputs strip resolve matrix l j = Except.ok us
      ∧ us.length = l.length
      ∧ ∀ k (hk : k < l.length) (hk2 : k < us.length),
          us.get ⟨k, hk2⟩ = expectedUnlock strip (l.get ⟨k, hk⟩)
            (orderedBy strip (keyOf (j + k)) (candidateSignatures matrix (j + k))
              (l.get ⟨k, hk⟩).publicKeys) := by
  intro l
  induction l with
  | nil =>
    intro j _
    exact ⟨[], rfl, rfl, fun k hk => absurd hk (Nat.not_lt_zero k)⟩
  | cons m rest ih =>
    intro j hall
    obtain ⟨hres, hnd, hcnt, hstrip, hkeys⟩ := hall 0 (Nat.succ_pos rest.length)
    have hu : signedInputUnlock strip resolve matrix (j + 0) m
        = Except.ok (expectedUnlock strip m
            (orderedBy strip (keyOf (j + 0)) (candidateSignatures matrix (j + 0))
              m.publicKeys)) :=
      signedInputUnlock_ok strip resolve matrix (j + 0) m (keyOf (j + 0)) hres hnd hcnt
    obtain ⟨us, hus, hlen, hspec⟩ := ih (j + 1) (fun k hk => by
      have h := hall (k + 1) (Nat.succ_lt_succ hk)
      rw [show j + (k + 1) = (j + 1) + k by omega] at h
      exact h)
    refine ⟨expectedUnlock strip m
        (orderedBy strip (keyOf (j + 0)) (candidateSignatures matrix (j + 0))
          m.publicKeys) :: us, ?_, ?_, ?_⟩
    · unfold signAllInputs
      rw [Nat.add_zero] at hu
      rw [hu]
      simp only [hus]
      rfl
    · simp [hlen]
    · intro k hk hk2
      cases k with
      | zero => rfl
      | succ k2 =>
        have h := hspec k2 (Nat.lt_of_succ_lt_succ hk) (Nat.lt_of_succ_lt_succ hk2)
        rw [show (j + 1) + k2 = j + (k2 + 1) by omega] at h
        exact h

theorem signAll_ok_unlock_ok (strip : String → String)
    (resolve : Nat → String → Except String (Option String))
    (matrix : List (List String)) :
    ∀ (l : List Multisig) (j : Nat) (us : List InputUnlock),
    signAllInputs strip resolve matrix l j = Except.ok us →
    ∀ k (hk : k < l.length),
      ∃ u, signedInputUnlock strip resolve matrix (j + k) (l.get ⟨k, hk⟩)
        = Except.ok u := by
  intro l
  induction l with
  | nil =>
    intro j us _ k hk
    exact absurd hk (Nat.not_lt_zero k)
  | cons m rest ih =>
    intro j us hok k hk
    unfold signAllInputs at hok
    cases hu : signedInputUnlock strip resolve matrix j m with
    | error e =>
      rw [hu] at hok
      simp at hok
    | ok u =>
      rw [hu] at hok
      simp only [] at hok
      cases hrest : signAllInputs strip resolve matrix rest (j + 1) with
      | error e =>
        rw [hrest] at hok
        simp at hok
      | ok us2 =>
        cases k with
        | zero => exact ⟨u, by rw [Nat.add_zero]; exact hu⟩
        | succ k2 =>
          obtain ⟨u2, hu2⟩ := ih (j + 1) us2 hrest k2 (Nat.lt_of_succ_lt_succ hk)
          refine ⟨u2, ?_⟩
          rw [show j + (k2 + 1) = (j + 1) + k2 by omega]
          exact hu2

theorem signAll_error_at (strip : String → String)
    (resolve : Nat → String → Except String (Option String))
    (matrix : List (List String)) :
    ∀ (l : List Multisig) (j i : Nat) (hi : i < l.length) (e : String),
    (∀ k (hk : k < i),
      ∃ u, signedInputUnlock strip resolve matrix (j + k)
        (l.get ⟨k, Nat.lt_trans hk hi⟩) = Except.ok u) →
    signedInputUnlock strip resolve matrix (j + i) (l.get ⟨i, hi⟩)
      = Except.error e →
    signAllInputs strip resolve matrix l j = Except.error e := by
  intro l
  induction l with
  | nil =>
    intro j i hi
    exact absurd hi (Nat.not_lt_zero i)
  | cons m rest ih =>
    intro j i hi e hearlier herr
    cases i with
    | zero =>
      rw [Nat.add_zero] at herr
      have herr2 : signedInputUnlock strip resolve matrix j m = Except.error e := herr
      unfold signAllInputs
      rw [herr2]
    | succ i2 =>
      obtain ⟨u, hu⟩ := hearlier 0 (Nat.succ_pos i2)
      rw [Nat.add_zero] at hu
      have hu2 : signedInputUnlock strip resolve matrix j m = Except.ok u := hu
      unfold signAllInputs
      rw [hu2]
      simp only []
      have hrest : signAllInputs strip resolve matrix rest (j + 1) = Except.error e := by
        apply ih (j + 1) i2 (Nat.lt_of_succ_lt_succ hi) e
        · intro k hk
          obtain ⟨u2, hu2⟩ := hearlier (k + 1) (Nat.succ_lt_succ hk)
          refine ⟨u2, ?_⟩
          rw [show (j + 1) + k = j + (k + 1) by omega]
          exact hu2
        · rw [show (j + 1) + i2 = j + (i2 + 1) by omega]
          exact herr
      rw [hrest]

theorem checkRows_none_iff (n : Nat) :
    ∀ (l : List (List String)) (idx : Nat),
    checkTransactionSignatureLengths n l idx = none ↔ ∀ row ∈ l, n ≤ row.length := by
  intro l
  induction l with
  | nil =>
    intro idx
    simp [checkTransactionSignatureLengths]
  | cons row rest ih =>
    intro idx
    unfold checkTransactionSignatureLengths
    by_cases h : row.length < n
    · rw [if_pos h]
      simp only []
      constructor
      · intro hc
        simp at hc
      · intro hall
        have := hall row (List.mem_cons_self row rest)
        omega
    · rw [if_neg h]
      rw [ih (idx + 1)]
      constructor
      · intro hall row2 hmem
        rcases List.mem_cons.mp hmem with rfl | hm
        · omega
        · exact hall row2 hm
      · exact fun hall row2 hm => hall row2 (List.mem_cons_of_mem row hm)

theorem candidateSignatures_perm (m1 m2 : List (List String))
    (h : m1.Perm m2) (i : Nat) :
    (candidateSignatures m1 i).Perm (candidateSignatures m2 i) :=
  (h.map _).filter _

theorem orderedBy_congr_perm (strip : String → String) (keyOf : String → String)
    (c1 c2 : List String) (pks : List String)
    (hperm : c1.Perm c2) (hnd : (c1.map keyOf).Nodup) :
    orderedBy strip keyOf c1 pks = orderedBy strip keyOf c2 pks := by
  unfold orderedBy
  congr 1
  funext pk
  rw [find?_congr_perm keyOf pk c1 c2 hperm hnd]

theorem signedInputUnlock_perm (strip : String → String)
    (resolve : Nat → String → Except String (Option String))
    (m1 m2 : List (List String)) (hperm : m1.Perm m2) (i : Nat) (msig : Multisig)
    (keyOf : String → String)
    (hres : ∀ s ∈ candidateSignatures m1 i, resolve i s = Except.ok (some (keyOf s)))
    (hnd : ((candidateSignatures m1 i).map keyOf).Nodup)
    (hcnt : msig.requiredSigners ≤ (candidateSignatures m1 i).length) :
    signedInputUnlock strip resolve m2 i msig
      = signedInputUnlock strip resolve m1 i msig := by
  have hcp := candidateSignatures_perm m1 m2 hperm i
  have hres2 : ∀ s ∈ candidateSignatures m2 i,
      resolve i s = Except.ok (some (keyOf s)) :=
    fun s hs => hres s (hcp.mem_iff.mpr hs)
  have hnd2 : ((candidateSignatures m2 i).map keyOf).Nodup := (hcp.map keyOf).nodup hnd
  have hcnt2 : msig.requiredSigners ≤ (candidateSignatures m2 i).length := by
    rw [← hcp.length_eq]
    exact hcnt
  rw [signedInputUnlock_ok strip resolve m2 i msig keyOf hres2 hnd2 hcnt2,
      signedInputUnlock_ok strip resolve m1 i msig keyOf hres hnd hcnt,
      orderedBy_congr_perm strip keyOf _ _ msig.publicKeys hcp hnd]

theorem signAll_congr (strip : String → String)
    (resolve : Nat → String → Except String (Option String))
    (m1 m2 : List (List String)) :
    ∀ (l : List Multisig) (j : Nat),
    (∀ k (hk : k < l.length),
      signedInputUnlock strip resolve m2 (j + k) (l.get ⟨k, hk⟩)
        = signedInputUnlock strip resolve m1 (j + k) (l.get ⟨k, hk⟩)) →
    signAllInputs strip resolve m2 l j = signAllInputs strip resolve m1 l j := by
  intro l
  induction l with
  | nil =>
    intro j _
    rfl
  | cons m rest ih =>
    intro j hall
    unfold signAllInputs
    have h0 := hall 0 (Nat.succ_pos rest.length)
    rw [Nat.add_zero] at h0
    have h02 : signedInputUnlock strip resolve m2 j m
        = signedInputUnlock strip resolve m1 j m := h0
    rw [h02]
    rw [ih (j + 1) (fun k hk => by
      have h := hall (k + 1) (Nat.succ_lt_succ hk)
      rw [show j + (k + 1) = (j + 1) + k by omega] at h
      exact h)]

theorem orderedBy_mem_iff (strip : String → String) (keyOf : String → String)
    (cands : List String) (pks : List String)
    (hnd : (cands.map keyOf).Nodup)
    (hkeys : ∀ s ∈ cands, keyOf s ∈ pks)
    (hstrip : ∀ s ∈ cands, strip s ≠ "") (s : String) :
    s ∈ orderedBy strip keyOf cands pks ↔ s ∈ cands := by
  unfold orderedBy
  rw [List.mem_filterMap]
  constructor
  · rintro ⟨pk, hpk, hmatch⟩
    cases hf : cands.find? (fun x => decide (keyOf x = pk)) with
    | none =>
      rw [hf] at hmatch
      exact absurd hmatch (by simp)
    | some s0 =>
      rw [hf] at hmatch
      simp only [] at hmatch
      by_cases hs0 : strip s0 ≠ ""
      · rw [if_pos hs0] at hmatch
        rw [← Option.some.inj hmatch]
        exact List.mem_of_find?_eq_some hf
      · rw [if_neg hs0] at hmatch
        exact absurd hmatch (by simp)
  · intro hs
    refine ⟨keyOf s, hkeys s hs, ?_⟩
    rw [find?_eq_some_of_mem_nodup keyOf (keyOf s) cands hnd s hs rfl]
    simp only []
    rw [if_pos (hstrip s hs)]

/-- C1: when every input's collected candidates resolve to pairwise-distinct
descriptor keys, in sufficient number, `signedMultisigTransaction` succeeds
and writes, for each legacy (P2SH) input, a scriptSig whose signature pushes
follow the descriptor's ordered public-key list (the `orderedBy` projection,
which contains exactly the collected signatures), not the submission order;
and permuting the signer rows of the matrix leaves the resulting transaction
unchanged. -/
theorem signedMultisigTransaction_pubkey_order (strip : String → String)
    (resolve : Nat → String → Except String (Option String))
    (inputs : List Multisig) (matrix : List (List String))
    (keyOf : Nat → String → String)
    (hne : matrix.length ≠ 0)
    (hrows : ∀ row ∈ matrix, inputs.length ≤ row.length)
    (hall : ∀ k (hk : k < inputs.length),
      InputHyps strip resolve matrix keyOf k (inputs.get ⟨k, hk⟩)) :
    (∃ us, signedMultisigTransaction strip resolve inputs matrix = Except.ok us
      ∧ us.length = inputs.length
      ∧ ∀ k (hk : k < inputs.length) (hk2 : k < us.length),
          (inputs.get ⟨k, hk⟩).addressType = AddressType.P2SH →
          (us.get ⟨k, hk2⟩).scriptSig
            = "OP_0" :: (orderedBy strip (keyOf k) (candidateSignatures matrix k)
                (inputs.get ⟨k, hk⟩).publicKeys).map (fun s => strip s ++ "01"))
    ∧ (∀ k (hk : k < inputs.length) (s : String),
        s ∈ orderedBy strip (keyOf k) (candidateSignatures matrix k)
            (inputs.get ⟨k, hk⟩).publicKeys
          ↔ s ∈ candidateSignatures matrix k)
    ∧ ∀ matrix2, matrix.Perm matrix2 →
        signedMultisigTransaction strip resolve inputs matrix2
          = signedMultisigTransaction strip resolve inputs matrix := by
  have hall0 : ∀ k (hk : k < inputs.length),
      InputHyps strip resolve matrix keyOf (0 + k) (inputs.get ⟨k, hk⟩) := by
    intro k hk
    rw [Nat.zero_add]
    exact hall k hk
  obtain ⟨us, hus, hlen, hspec⟩ := signAll_ok_of strip resolve matrix keyOf inputs 0 hall0
  have hrows0 : checkTransactionSignatureLengths inputs.length matrix 0 = none :=
    (checkRows_none_iff inputs.length matrix 0).mpr hrows
  constructor
  · refine ⟨us, ?_, hlen, ?_⟩
    · unfold signedMultisigTransaction
      rw [if_neg hne, hrows0]
      exact hus
    · intro k hk hk2 haddr
      have h := hspec k hk hk2
      rw [Nat.zero_add] at h
      rw [h]
      unfold expectedUnlock
      rw [haddr]
      rfl
  constructor
  · intro k hk s
    obtain ⟨hres, hnd, hcnt, hstrip, hkeys⟩ := hall k hk
    exact orderedBy_mem_iff strip (keyOf k) (candidateSignatures matrix k)
      (inputs.get ⟨k, hk⟩).publicKeys hnd hkeys hstrip s
  · intro matrix2 hperm
    have hne2 : matrix2.length ≠ 0 := by
      rw [← hperm.length_eq]
      exact hne
    have hrows2 : checkTransactionSignatureLengths inputs.length matrix2 0 = none :=
      (checkRows_none_iff inputs.length matrix2 0).mpr
        (fun row hr => hrows row (hperm.mem_iff.mpr hr))
    unfold signedMultisigTransaction
    rw [if_neg hne, if_neg hne2, hrows0, hrows2]
    exact signAll_congr strip resolve matrix matrix2 inputs 0 (fun k hk => by
      obtain ⟨hres, hnd, hcnt, hstrip, hkeys⟩ := hall0 k hk
      exact signedInputUnlock_perm strip resolve matrix matrix2 hperm (0 + k)
        (inputs.get ⟨k, hk⟩) (keyOf (0 + k)) hres hnd hcnt)

theorem signedMultisigTransaction_pubkey_order_witness :
    (∀ k (hk : k < inputsC1.length),
      InputHyps stripId resolveC1 matrixC1 keyOfC1 k (inputsC1.get ⟨k, hk⟩))
    ∧ ((∃ us, signedMultisigTransaction stripId resolveC1 inputsC1 matrixC1
          = Except.ok us
        ∧ us.length = inputsC1.length
        ∧ ∀ k (hk : k < inputsC1.length) (hk2 : k < us.length),
            (inputsC1.get ⟨k, hk⟩).addressType = AddressType.P2SH →
            (us.get ⟨k, hk2⟩).scriptSig
              = "OP_0" :: (orderedBy stripId (keyOfC1 k)
                  (candidateSignatures matrixC1 k)
                  (inputsC1.get ⟨k, hk⟩).publicKeys).map (fun s => stripId s ++ "01"))
      ∧ (∀ k (hk : k < inputsC1.length) (s : String),
          s ∈ orderedBy stripId (keyOfC1 k) (candidateSignatures matrixC1 k)
              (inputsC1.get ⟨k, hk⟩).publicKeys
            ↔ s ∈ candidateSignatures matrixC1 k)
      ∧ ∀ matrix2, matrixC1.Perm matrix2 →
          signedMultisigTransaction stripId resolveC1 inputsC1 matrix2
            = signedMultisigTransaction stripId resolveC1 inputsC1 matrixC1) :=
  ⟨by decide,
   signedMultisigTransaction_pubkey_order stripId resolveC1 inputsC1 matrixC1 keyOfC1
     (by decide) (by decide) (by decide)⟩

theorem signedInputUnlock_ok_not_short (strip : String → String)
    (resolve : Nat → String → Except String (Option String))
    (matrix : List (List String)) (i : Nat) (m : Multisig) (u : InputUnlock)
    (hok : signedInputUnlock strip resolve matrix i m = Except.ok u) :
    ¬ (candidateSignatures matrix i).length < m.requiredSigners := by
  intro hshort
  unfold signedInputUnlock at hok
  simp only [] at hok
  rw [if_pos hshort] at hok
  exact Except.noConfusion hok

theorem buildSig_cons (resolve : Nat → String → Except String (Option String))
    (i : Nat) (s : String) (rest : List String) (acc : List (String × String)) :
    buildSignaturesByPublicKey resolve i (s :: rest) acc
      = match resolve i s with
        | Except.error e =>
          Except.error ("Invalid signature for input " ++ toString (i + 1)
            ++ ": " ++ s ++ " (" ++ e ++ ")")
        | Except.ok none =>
          Except.error ("Invalid signature for input " ++ toString (i + 1) ++ ": " ++ s)
        | Except.ok (some publicKey) =>
          if (lookupSig acc publicKey).isSome = true then
            Except.error ("Duplicate signature for input " ++ toString (i + 1)
              ++ ": " ++ s)
          else buildSignaturesByPublicKey resolve i rest (acc ++ [(publicKey, s)]) := rfl

theorem buildSig_append_ok (resolve : Nat → String → Except String (Option String))
    (i : Nat) :
    ∀ (a : List String) (acc acc2 : List (String × String)),
    buildSignaturesByPublicKey resolve i a acc = Except.ok acc2 →
    ∀ (bl : List String),
      buildSignaturesByPublicKey resolve i (a ++ bl) acc
        = buildSignaturesByPublicKey resolve i bl acc2 := by
  intro a
  induction a with
  | nil =>
    intro acc acc2 hok bl
    have : acc = acc2 := Except.ok.inj hok
    rw [List.nil_append, this]
  | cons s0 t ih =>
    intro acc acc2 hok bl
    rw [buildSig_cons] at hok
    rw [List.cons_append, buildSig_cons]
    cases hr : resolve i s0 with
    | error e =>
      rw [hr] at hok
      simp at hok
    | ok o =>
      cases o with
      | none =>
        rw [hr] at hok
        simp at hok
      | some pk =>
        rw [hr] at hok
        simp only [] at hok
        by_cases hl : (lookupSig acc pk).isSome = true
        · rw [if_pos hl] at hok
          exact Except.noConfusion hok
        · rw [if_neg hl] at hok
          simp only []
          rw [if_neg hl]
          exact ih (acc ++ [(pk, s0)]) acc2 hok bl

/-- C8 (amended): if some input's collected candidate count is below its
required-signers count, the call can never return a transaction; and when
every earlier input signs successfully (so the short input is the first
failure encountered), the error is the insufficient-signatures message naming
that input's 1-based index and the required and received counts. -/
theorem signedMultisigTransaction_insufficient (strip : String → String)
    (resolve : Nat → String → Except String (Option String))
    (inputs : List Multisig) (matrix : List (List String)) (i : Nat)
    (hi : i < inputs.length)
    (hshort : (candidateSignatures matrix i).length
      < (inputs.get ⟨i, hi⟩).requiredSigners) :
    (∀ us, signedMultisigTransaction strip resolve inputs matrix ≠ Except.ok us)
    ∧ (matrix.length ≠ 0 →
        checkTransactionSignatureLengths inputs.length matrix 0 = none →
        (∀ k (hk : k < i), ∃ u, signedInputUnlock strip resolve matrix k
            (inputs.get ⟨k, Nat.lt_trans hk hi⟩) = Except.ok u) →
        signedMultisigTransaction strip resolve inputs matrix
          = Except.error ("Insufficient signatures for input  " ++ toString (i + 1)
              ++ ": require " ++ toString (inputs.get ⟨i, hi⟩).requiredSigners
              ++ ",  received " ++ toString (candidateSignatures matrix i).length
              ++ ".")) := by
  have herr : signedInputUnlock strip resolve matrix i (inputs.get ⟨i, hi⟩)
      = Except.error ("Insufficient signatures for input  " ++ toString (i + 1)
          ++ ": require " ++ toString (inputs.get ⟨i, hi⟩).requiredSigners
          ++ ",  received " ++ toString (candidateSignatures matrix i).length
          ++ ".") := by
    unfold signedInputUnlock
    simp only []
    rw [if_pos hshort]
  constructor
  · intro us hok
    unfold signedMultisigTransaction at hok
    by_cases hne : matrix.length = 0
    · rw [if_pos hne] at hok
      exact Except.noConfusion hok
    · rw [if_neg hne] at hok
      cases hrows : checkTransactionSignatureLengths inputs.length matrix 0 with
      | some e =>
        rw [hrows] at hok
        exact Except.noConfusion hok
      | none =>
        rw [hrows] at hok
        obtain ⟨u, hu⟩ := signAll_ok_unlock_ok strip resolve matrix inputs 0 us hok i hi
        rw [Nat.zero_add] at hu
        exact signedInputUnlock_ok_not_short strip resolve matrix i _ u hu hshort
  · intro hne hrows hearlier
    unfold signedMultisigTransaction
    rw [if_neg hne, hrows]
    apply signAll_error_at strip resolve matrix inputs 0 i hi
    · intro k hk
      obtain ⟨u, hu⟩ := hearlier k hk
      refine ⟨u, ?_⟩
      rw [Nat.zero_add]
      exact hu
    · rw [Nat.zero_add]
      exact herr

theorem signedMultisigTransaction_insufficient_counterexample :
    ((candidateSignatures matrixC8 1).length < mC8.requiredSigners
      ∧ inputsC8 = [mC8, mC8]
      ∧ matrixC8.length ≠ 0
      ∧ (∀ row ∈ matrixC8, inputsC8.length ≤ row.length))
    ∧ signedMultisigTransaction stripId resolveNone inputsC8 matrixC8
        = Except.error "Insufficient signatures for input  1: require 1,  received 0."
    ∧ ("Insufficient signatures for input  1: require 1,  received 0." : String)
        ≠ "Insufficient signatures for input  2: require 1,  received 0." := by
  decide

theorem signedMultisigTransaction_insufficient_witness :
    ((candidateSignatures matrixC8w 0).length < mC8.requiredSigners)
    ∧ signedMultisigTransaction stripId resolveNone inputsC8w matrixC8w
        = Except.error "Insufficient signatures for input  1: require 1,  received 0." :=
  ⟨by decide,
   by
     have h := (signedMultisigTransaction_insufficient stripId resolveNone inputsC8w
       matrixC8w 0 (by decide) (by decide)).2 (by decide) (by decide)
       (fun k hk => absurd hk (Nat.not_lt_zero k))
     exact h.trans (by decide)⟩

theorem buildSig_duplicate_error (resolve : Nat → String → Except String (Option String))
    (i : Nat) (l1 l2 : List String) (s2 : String) (keyOf : String → String)
    (pk2 : String)
    (hres1 : ∀ s ∈ l1, resolve i s = Except.ok (some (keyOf s)))
    (hnd1 : (l1.map keyOf).Nodup)
    (hs2 : resolve i s2 = Except.ok (some pk2))
    (hdup : ∃ s1 ∈ l1, keyOf s1 = pk2) :
    buildSignaturesByPublicKey resolve i (l1 ++ s2 :: l2) []
      = Except.error ("Duplicate signature for input " ++ toString (i + 1)
          ++ ": " ++ s2) := by
  obtain ⟨s1, hs1mem, hs1key⟩ := hdup
  have hmap := buildSig_ok_of resolve i keyOf l1 [] hres1 hnd1 (fun s _ => rfl)
  rw [buildSig_append_ok resolve i l1 [] ([] ++ l1.map (fun s => (keyOf s, s)))
    hmap (s2 :: l2)]
  rw [buildSig_cons, hs2]
  simp only [List.nil_append]
  have hlk : lookupSig (l1.map (fun s => (keyOf s, s))) pk2 = some s1 := by
    rw [lookupSig_map]
    exact find?_eq_some_of_mem_nodup keyOf pk2 l1 hnd1 s1 hs1mem hs1key
  rw [hlk]
  rfl

theorem buildSig_ok_split (resolve : Nat → String → Except String (Option String))
    (i : Nat) :
    ∀ (a b : List String) (acc m : List (String × String)),
    buildSignaturesByPublicKey resolve i (a ++ b) acc = Except.ok m →
    ∃ acc2, buildSignaturesByPublicKey resolve i a acc = Except.ok acc2
      ∧ buildSignaturesByPublicKey resolve i b acc2 = Except.ok m := by
  intro a
  induction a with
  | nil =>
    intro b acc m hok
    exact ⟨acc, rfl, hok⟩
  | cons s0 t ih =>
    intro b acc m hok
    rw [List.cons_append, buildSig_cons] at hok
    rw [buildSig_cons]
    cases hr : resolve i s0 with
    | error e =>
      rw [hr] at hok
      simp at hok
    | ok o =>
      cases o with
      | none =>
        rw [hr] at hok
        simp at hok
      | some pk =>
        rw [hr] at hok
        simp only [] at hok
        by_cases hl : (lookupSig acc pk).isSome = true
        · rw [if_pos hl] at hok
          exact Except.noConfusion hok
        · rw [if_neg hl] at hok
          simp only []
          rw [if_neg hl]
          exact ih b (acc ++ [(pk, s0)]) m hok

theorem buildSig_preserves_lookup (resolve : Nat → String → Except String (Option String))
    (i : Nat) :
    ∀ (l : List String) (acc m : List (String × String)),
    buildSignaturesByPublicKey resolve i l acc = Except.ok m →
    ∀ pk v, lookupSig acc pk = some v → lookupSig m pk = some v := by
  intro l
  induction l with
  | nil =>
    intro acc m hok pk v hv
    rw [← Except.ok.inj hok]
    exact hv
  | cons s0 t ih =>
    intro acc m hok pk v hv
    rw [buildSig_cons] at hok
    cases hr : resolve i s0 with
    | error e =>
      rw [hr] at hok
      simp at hok
    | ok o =>
      cases o with
      | none =>
        rw [hr] at hok
        simp at hok
      | some pk0 =>
        rw [hr] at hok
        simp only [] at hok
        by_cases hl : (lookupSig acc pk0).isSome = true
        · rw [if_pos hl] at hok
          exact Except.noConfusion hok
        · rw [if_neg hl] at hok
          apply ih (acc ++ [(pk0, s0)]) m hok pk v
          rw [lookupSig_append, hv]

theorem buildSig_output_isSome (resolve : Nat → String → Except String (Option String))
    (i : Nat) :
    ∀ (l : List String) (acc m : List (String × String)),
    buildSignaturesByPublicKey resolve i l acc = Except.ok m →
    ∀ s ∈ l, ∀ pk, resolve i s = Except.ok (some pk) →
      (lookupSig m pk).isSome = true := by
  intro l
  induction l with
  | nil =>
    intro acc m _ s hs
    cases hs
  | cons s0 t ih =>
    intro acc m hok s hs pk hpk
    rw [buildSig_cons] at hok
    cases hr : resolve i s0 with
    | error e =>
      rw [hr] at hok
      simp at hok
    | ok o =>
      cases o with
      | none =>
        rw [hr] at hok
        simp at hok
      | some pk0 =>
        rw [hr] at hok
        simp only [] at hok
        by_cases hl : (lookupSig acc pk0).isSome = true
        · rw [if_pos hl] at hok
          exact Except.noConfusion hok
        · rw [if_neg hl] at hok
          rcases List.mem_cons.mp hs with rfl | hst
          · have hpk0 : pk = pk0 := by
              rw [hr] at hpk
              exact (Option.some.inj (Except.ok.inj hpk)).symm
            have hnone : lookupSig acc pk0 = none :=
              Option.not_isSome_iff_eq_none.mp hl
            have hsome : lookupSig (acc ++ [(pk0, s)]) pk0 = some s := by
              rw [lookupSig_append, hnone]
              simp [lookupSig]
            have hm := buildSig_preserves_lookup resolve i t (acc ++ [(pk0, s)]) m
              hok pk0 s hsome
            rw [hpk0, hm]
            rfl
          · exact ih (acc ++ [(pk0, s0)]) m hok s hst pk hpk

theorem buildSig_two_same_key_ne_ok (resolve : Nat → String → Except String (Option String))
    (i : Nat) (l1 l2 : List String) (s1 s2 : String) (pk2 : String)
    (hs1mem : s1 ∈ l1)
    (hs1 : resolve i s1 = Except.ok (some pk2))
    (hs2 : resolve i s2 = Except.ok (some pk2)) :
    ∀ (acc m : List (String × String)),
    buildSignaturesByPublicKey resolve i (l1 ++ s2 :: l2) acc ≠ Except.ok m := by
  intro acc m hok
  obtain ⟨acc2, h1, h2⟩ := buildSig_ok_split resolve i l1 (s2 :: l2) acc m hok
  have hsome := buildSig_output_isSome resolve i l1 acc acc2 h1 s1 hs1mem pk2 hs1
  rw [buildSig_cons, hs2] at h2
  simp only [] at h2
  rw [if_pos hsome] at h2
  exact Except.noConfusion h2

/-- C9 (amended): if two collected candidates of one input resolve to the same
descriptor public key, the call can never return a transaction — with no
condition on the other candidates; and when the duplicate is additionally the
first failure encountered (all earlier inputs sign, the count check passes,
and every candidate before the offending one resolves to pairwise-distinct
keys), the error is the duplicate-signature message naming that input and the
offending signature. -/
theorem signedMultisigTransaction_duplicate (strip : String → String)
    (resolve : Nat → String → Except String (Option String))
    (inputs : List Multisig) (matrix : List (List String)) (i : Nat)
    (hi : i < inputs.length) (l1 l2 : List String) (s2 s1 : String)
    (keyOf : String → String) (pk2 : String)
    (hdecomp : candidateSignatures matrix i = l1 ++ s2 :: l2)
    (hs1mem : s1 ∈ l1)
    (hs1 : resolve i s1 = Except.ok (some pk2))
    (hs2 : resolve i s2 = Except.ok (some pk2)) :
    (∀ us, signedMultisigTransaction strip resolve inputs matrix ≠ Except.ok us)
    ∧ ((∀ s ∈ l1, resolve i s = Except.ok (some (keyOf s))) →
        (l1.map keyOf).Nodup →
        (inputs.get ⟨i, hi⟩).requiredSigners ≤ (candidateSignatures matrix i).length →
        matrix.length ≠ 0 →
        checkTransactionSignatureLengths inputs.length matrix 0 = none →
        (∀ k (hk : k < i), ∃ u, signedInputUnlock strip resolve matrix k
            (inputs.get ⟨k, Nat.lt_trans hk hi⟩) = Except.ok u) →
        signedMultisigTransaction strip resolve inputs matrix
          = Except.error ("Duplicate signature for input " ++ toString (i + 1)
              ++ ": " ++ s2)) := by
  constructor
  · intro us hok
    unfold signedMultisigTransaction at hok
    by_cases hne : matrix.length = 0
    · rw [if_pos hne] at hok
      exact Except.noConfusion hok
    · rw [if_neg hne] at hok
      cases hrows : checkTransactionSignatureLengths inputs.length matrix 0 with
      | some e =>
        rw [hrows] at hok
        exact Except.noConfusion hok
      | none =>
        rw [hrows] at hok
        obtain ⟨u, hu⟩ := signAll_ok_unlock_ok strip resolve matrix inputs 0 us hok i hi
        rw [Nat.zero_add] at hu
        unfold signedInputUnlock at hu
        simp only [] at hu
        by_cases hshort : (candidateSignatures matrix i).length
            < (inputs.get ⟨i, hi⟩).requiredSigners
        · rw [if_pos hshort] at hu
          exact Except.noConfusion hu
        · rw [if_neg hshort, hdecomp] at hu
          cases hb : buildSignaturesByPublicKey resolve i (l1 ++ s2 :: l2) [] with
          | error e =>
            rw [hb] at hu
            exact Except.noConfusion hu
          | ok msig =>
            exact buildSig_two_same_key_ne_ok resolve i l1 l2 s1 s2 pk2
              hs1mem hs1 hs2 [] msig hb
  · intro hres1 hnd1 hcnt hne hrows hearlier
    have hkey : keyOf s1 = pk2 :=
      Option.some.inj (Except.ok.inj ((hres1 s1 hs1mem).symm.trans hs1))
    have hbuild : buildSignaturesByPublicKey resolve i (candidateSignatures matrix i) []
        = Except.error ("Duplicate signature for input " ++ toString (i + 1)
            ++ ": " ++ s2) := by
      rw [hdecomp]
      exact buildSig_duplicate_error resolve i l1 l2 s2 keyOf pk2 hres1 hnd1 hs2
        ⟨s1, hs1mem, hkey⟩
    have herr : signedInputUnlock strip resolve matrix i (inputs.get ⟨i, hi⟩)
        = Except.error ("Duplicate signature for input " ++ toString (i + 1)
            ++ ": " ++ s2) := by
      unfold signedInputUnlock
      simp only []
      rw [if_neg (by omega), hbuild]
    unfold signedMultisigTransaction
    rw [if_neg hne, hrows]
    apply signAll_error_at strip resolve matrix inputs 0 i hi
    · intro k hk
      obtain ⟨u, hu⟩ := hearlier k hk
      refine ⟨u, ?_⟩
      rw [Nat.zero_add]
      exact hu
    · rw [Nat.zero_add]
      exact herr

theorem signedMultisigTransaction_duplicate_counterexample :
    (resolveC9 0 "s1" = Except.ok (some "K")
      ∧ resolveC9 0 "s2" = Except.ok (some "K")
      ∧ ("s1" : String) ≠ "s2"
      ∧ "s1" ∈ candidateSignatures matrixC9 0
      ∧ "s2" ∈ candidateSignatures matrixC9 0)
    ∧ signedMultisigTransaction stripId resolveC9 inputsC8w matrixC9
        = Except.error "Invalid signature for input 1: bad (boom)"
    ∧ signedMultisigTransaction stripId resolveC9 inputsC8w matrixC9
        ≠ Except.error ("Duplicate signature for input 1: " ++ "s2")
    ∧ signedMultisigTransaction stripId resolveC9 inputsC8w matrixC9
        ≠ Except.error ("Duplicate signature for input 1: " ++ "s1") := by
  decide

theorem signedMultisigTransaction_duplicate_witness :
    (resolveC9w 0 "s1" = Except.ok (some "K")
      ∧ resolveC9w 0 "s2" = Except.ok (some "K")
      ∧ candidateSignatures matrixC9w 0 = ["s1"] ++ "s2" :: [])
    ∧ signedMultisigTransaction stripId resolveC9w inputsC8w matrixC9w
        = Except.error "Duplicate signature for input 1: s2" :=
  ⟨by decide,
   by
     have h := (signedMultisigTransaction_duplicate stripId resolveC9w inputsC8w
       matrixC9w 0 (by decide) ["s1"] [] "s2" "s1" (fun _ => "K") "K"
       (by decide) (by decide) (by decide) (by decide)).2
       (by decide) (by decide) (by decide) (by decide) (by decide)
       (fun k hk => absurd hk (Nat.not_lt_zero k))
     exact h.trans (by decide)⟩

end Unchained
